import Mathlib

/-!
# Verification of the careers10-arena server core

A shallow embedding, in Lean 4, of the parts of the `careers10-arena`
server that the specification's claims talk about:

* `src/server/util.py` — the `clamp` helper;
* `src/server/game/entities.py` — the `Fighter` record;
* `src/server/game/arena_sim.py` — the arena room: attack/hit resolution,
  knock-outs, respawn, edge-triggered action inputs, match finishing and
  stats recording;
* `src/server/matchmaking.py` — the FIFO matchmaker.

Python floats are modelled as rationals (`ℚ`), Python ints as `ℕ`/`ℤ`,
Python `None`-able values as `Option`.  The module `game/constants.py` is
imported by the simulation but is not part of the provided sources; the
few constants whose concrete value matters are modelled from the spec
(marked below), the rest are taken as explicit parameters.
-/

namespace Careers

/-- `util.clamp`: `max(lo, min(hi, value))`. -/
def clamp {α : Type _} [LinearOrder α] (value lo hi : α) : α :=
  max lo (min hi value)

/-- Modelled from the spec: `ULT_CHARGE_MAX` lives in `game/constants.py`,
which is missing from the sources.  The spec calls it the charge-meter
maximum, and the boss spawner (`arena_sim.py`, `_spawn_boss`) sets a full
meter with `boss.ult_charge = 100.0`, so the maximum is 100. -/
def ULT_CHARGE_MAX : ℚ := 100

/-- Modelled from the spec: `RESPAWN_SECONDS` (the fixed respawn duration)
lives in the missing `game/constants.py`.  No claim depends on the exact
value; any positive duration works, 3 seconds is used here. -/
def RESPAWN_SECONDS : ℚ := 3

/-- `entities.Fighter` (the fields used by the claims; the cosmetic
fields `username`, `display_name`, `color`, `last_input_seq` and the
per-key `hit_latch` table — modelled separately by `edgeRun` — are
omitted).  Defaults mirror the dataclass defaults. -/
structure Fighter where
  user_id : ℕ := 0
  character_id : String := "jovan"
  team : ℤ := 0
  x : ℚ := 0
  y : ℚ := 0
  vx : ℚ := 0
  vy : ℚ := 0
  hp : ℚ := 100
  max_hp : ℚ := 100
  move_speed : ℚ := 180
  damage_scale : ℚ := 1
  kb_resist : ℚ := 1
  hitbox_scale : ℚ := 1
  dash_cd : ℚ := 0
  dash_timer : ℚ := 0
  basic_cd : ℚ := 0
  special_cd : ℚ := 0
  ult_cd : ℚ := 0
  stun_timer : ℚ := 0
  respawn_timer : ℚ := 0
  ult_charge : ℚ := 0
  ult_buff_timer : ℚ := 0
  slow_timer : ℚ := 0
  slow_mult : ℚ := 1
  alive : Bool := true
  score_kos : ℕ := 0
  score_deaths : ℕ := 0
  last_hit_by : Option ℕ := none
deriving DecidableEq

/-- `Fighter.radius`: `16.0 * self.hitbox_scale`. -/
def Fighter.radius (f : Fighter) : ℚ := 16 * f.hitbox_scale

/-- The `stats` block of a character-definition catalog entry
(`CHARACTERS[char_id]["stats"]`). -/
structure CharStats where
  hp : ℚ
  speed : ℚ
  damage : ℚ
  knockback_resist : ℚ
  hitbox_scale : ℚ
deriving DecidableEq

/-- `ArenaRoom._apply_character_stats`: re-derives a fighter's stats from
its character definition.  Python's `fighter.hp or fighter.max_hp` falls
back to the (new) `max_hp` exactly when `hp == 0.0`, the only falsy
float value reachable here. -/
def applyCharacterStats (c : CharStats) (f : Fighter) : Fighter :=
  { f with
    max_hp := c.hp
    hp := min (if f.hp = 0 then c.hp else f.hp) c.hp
    move_speed := c.speed
    damage_scale := c.damage
    kb_resist := c.knockback_resist
    hitbox_scale := c.hitbox_scale }

/-- The tuning of one resolved swing of `ArenaRoom._attack`:
`damage_base` is the `base_damage` value at the top of the target loop
(ability base damage, already multiplied by the attacker's
`damage_scale` and any ultimate-buff factor), `kb` the knockback
magnitude, `stun` the stun duration. -/
structure HitParams where
  damage_base : ℚ
  kb : ℚ
  stun : ℚ
deriving DecidableEq

/-- The per-target hit body of `ArenaRoom._attack` (the target-side
mutations): damage floor `max(1.0, base_damage)`, knockback scaled by
`max(50.0, kb / max(0.25, target.kb_resist))` along the unit direction
`(nx, ny)` from attacker to target, stun raised to at least `stun`, and
`last_hit_by` recorded. -/
def hitTarget (p : HitParams) (nx ny : ℚ) (attackerId : ℕ) (t : Fighter) : Fighter :=
  let damage := max 1 p.damage_base
  let kbScale := max 50 (p.kb / max (1/4) t.kb_resist)
  { t with
    hp := t.hp - damage
    vx := t.vx + nx * kbScale
    vy := t.vy + ny * kbScale
    stun_timer := max t.stun_timer p.stun
    last_hit_by := some attackerId }

/-- The attacker-side mutation of one hit in `ArenaRoom._attack`:
`attacker.ult_charge = min(ULT_CHARGE_MAX, attacker.ult_charge + damage * 0.8)`. -/
def chargeOnHit (p : HitParams) (a : Fighter) : Fighter :=
  { a with ult_charge := min ULT_CHARGE_MAX (a.ult_charge + max 1 p.damage_base * (4/5)) }

/-- The victim-side mutations of `ArenaRoom._ko_fighter`. -/
def koVictim (v : Fighter) : Fighter :=
  { v with
    alive := false
    respawn_timer := RESPAWN_SECONDS
    score_deaths := v.score_deaths + 1
    hp := 0
    vx := 0
    vy := 0 }

/-- The killer-side mutations of `ArenaRoom._ko_fighter` (kill counter
and `min(ULT_CHARGE_MAX, killer.ult_charge + 20)`). -/
def koKillerReward (k : Fighter) : Fighter :=
  { k with
    score_kos := k.score_kos + 1
    ult_charge := min ULT_CHARGE_MAX (k.ult_charge + 20) }

/-- `ArenaRoom._respawn_fighter` with `full_heal=True`.  The spawn point
is drawn from a shuffled list (`random.Random.shuffle`); the chosen
coordinates are taken as the parameters `sx`, `sy`. -/
def respawnFighter (sx sy : ℚ) (f : Fighter) : Fighter :=
  { f with
    x := sx
    y := sy
    vx := 0
    vy := 0
    alive := true
    respawn_timer := 0
    stun_timer := 0
    hp := f.max_hp }

/-- The respawn-timer branch at the top of the per-fighter loop of
`ArenaRoom.tick`: while `respawn_timer > 0` the timer is decremented
(clamped at zero) and, once it reaches zero, the fighter is fully healed
and respawned; nothing else of the fighter is touched (`continue`). -/
def respawnTick (dt sx sy : ℚ) (f : Fighter) : Fighter :=
  if 0 < f.respawn_timer then
    let f1 := { f with respawn_timer := max 0 (f.respawn_timer - dt) }
    if f1.respawn_timer ≤ 0 then respawnFighter sx sy { f1 with hp := f1.max_hp }
    else f1
  else f

/-- One in-range target's full resolution inside `ArenaRoom._attack`'s
loop, target side: the hit body followed by the knock-out check
`if target.hp <= 0: self._ko_fighter(target, attacker.user_id)`. -/
def resolveHit (p : HitParams) (nx ny : ℚ) (attackerId : ℕ) (t : Fighter) : Fighter :=
  let t1 := hitTarget p nx ny attackerId t
  if t1.hp ≤ 0 then koVictim t1 else t1

/-- The operations of the simulation that write a fighter's health. -/
inductive FighterOp where
  | stats (c : CharStats)
  | hit (p : HitParams) (nx ny : ℚ) (attackerId : ℕ)
  | ko
  | spawn (sx sy : ℚ)
  | tickRespawn (dt sx sy : ℚ)
deriving DecidableEq

def applyFighterOp : FighterOp → Fighter → Fighter
  | .stats c, f => applyCharacterStats c f
  | .hit p nx ny aid, f => resolveHit p nx ny aid f
  | .ko, f => koVictim f
  | .spawn sx sy, f => respawnFighter sx sy f
  | .tickRespawn dt sx sy, f => respawnTick dt sx sy f

/-- Side conditions the real code guarantees for each operation: every
catalog entry has a nonnegative (indeed positive) base `hp`. -/
def FighterOp.wf : FighterOp → Prop
  | .stats c => 0 ≤ c.hp
  | _ => True

/-- The health invariant of the spec: `0 ≤ hp ≤ max_hp`. -/
def HpInv (f : Fighter) : Prop := 0 ≤ f.hp ∧ f.hp ≤ f.max_hp

/-- Events appended to a room's event/outbox buffers (payload fields not
inspected by any claim — scoreboards, rounding of the reported damage —
are omitted). -/
inductive Event where
  | arenaEnd (reason : String)
  | ko (victim : ℕ) (killer : Option ℕ)
  | hit (attacker target : ℕ) (damage : ℚ)
  | whiff (attacker : ℕ) (move : String)
  | buff (user : ℕ) (name : String)
deriving DecidableEq

/-- One invocation of the stats-recording hook
`db.apply_match_result(user_id, win=..., kos_delta=..., deaths_delta=...)`. -/
structure DbCall where
  user_id : ℕ
  win : Bool
  kos_delta : ℕ
  deaths_delta : ℕ
deriving DecidableEq

/-- `ArenaRoom` (the fields the claims are about).  Omitted fields of the
source class: `members`, `spectators`, `ready`, `inputs`, `width`,
`height`, `target_kos`, `tick_seq`, snapshot bookkeeping and the RNG —
none of them participates in the claimed properties.  `dbCalls` records
the calls made to the external `db.apply_match_result` hook, in order. -/
structure ArenaRoom where
  room_id : String
  mode_name : String
  state : String
  players : List ℕ
  fighters : ℕ → Option Fighter
  boss_fighter : Option Fighter
  ended : Bool
  results_applied : Bool
  match_seconds : ℤ
  time_left : ℚ
  outbox : List Event
  event_accum : List Event
  dbCalls : List DbCall

/-- `ArenaRoom.__init__`: in particular
`self.match_seconds = int(clamp(match_seconds, 60, 120))` and
`self.time_left = float(self.match_seconds)`. -/
def ArenaRoom.init (room_id mode_name : String) (match_seconds : ℤ) : ArenaRoom :=
  { room_id := room_id
    mode_name := mode_name
    state := "waiting"
    players := []
    fighters := fun _ => none
    boss_fighter := none
    ended := false
    results_applied := false
    match_seconds := clamp match_seconds 60 120
    time_left := (clamp match_seconds 60 120 : ℤ)
    outbox := []
    event_accum := []
    dbCalls := [] }

/-- C10: a newly constructed `ArenaRoom` clamps the requested
`match_seconds` into `[60, 120]` — values below 60 become 60, values
above 120 become 120, in-range values are kept — and its initial
`time_left` equals the clamped value. -/
theorem arena_init_match_seconds_clamped (rid mode : String) (m : ℤ) :
    60 ≤ (ArenaRoom.init rid mode m).match_seconds
    ∧ (ArenaRoom.init rid mode m).match_seconds ≤ 120
    ∧ (m < 60 → (ArenaRoom.init rid mode m).match_seconds = 60)
    ∧ (120 < m → (ArenaRoom.init rid mode m).match_seconds = 120)
    ∧ (60 ≤ m → m ≤ 120 → (ArenaRoom.init rid mode m).match_seconds = m)
    ∧ (ArenaRoom.init rid mode m).time_left =
        ((ArenaRoom.init rid mode m).match_seconds : ℚ) := by
  simp only [ArenaRoom.init, clamp]
  refine ⟨le_max_left _ _, ?_, ?_, ?_, ?_, trivial⟩
  · exact max_le (by norm_num) (min_le_left _ _)
  · intro h
    have h1 : min (120 : ℤ) m ≤ 60 := le_trans (min_le_right _ _) (by omega)
    omega
  · intro h
    have h1 : min (120 : ℤ) m = 120 := min_eq_left (by omega)
    rw [h1]
    omega
  · intro h1 h2
    have h3 : min (120 : ℤ) m = m := min_eq_right h2
    rw [h3]
    omega

/-- Witness for C10 at a concrete out-of-range request. -/
theorem arena_init_match_seconds_clamped_witness :
    (ArenaRoom.init "r1" "ffa" 30).match_seconds = 60 :=
  (arena_init_match_seconds_clamped "r1" "ffa" 30).2.2.1 (by decide)

/-! ## Edge-triggered action inputs (`ArenaRoom._handle_action_edges`) -/

/-- The edge-trigger gate of `ArenaRoom._handle_action_edges` for one
action key on one tick: with previous latch `latch` and current input
`pressed`, the action can fire only when `just_pressed = pressed and not
was` holds and the fighter is alive and not stunned
(`if not just_pressed or not fighter.alive or fighter.stun_timer > 0:
continue`).  Per-ability cooldown gating happens after this gate. -/
def edgeFires (latch pressed alive : Bool) (stun : ℚ) : Bool :=
  pressed && !latch && alive && decide (stun ≤ 0)

/-- Running the edge-trigger over a sequence of per-tick button states
for one key: the latch is set to the current state on every tick
(`fighter.hit_latch[key] = pressed`), whether or not the gate passes.
Returns the final latch and the number of ticks on which the action
fired. -/
def edgeRun (alive : Bool) (stun : ℚ) : Bool → List Bool → Bool × ℕ
  | latch, [] => (latch, 0)
  | latch, p :: ps =>
    let rest := edgeRun alive stun p ps
    (rest.1, (if edgeFires latch p alive stun then 1 else 0) + rest.2)

theorem edgeRun_latch (alive : Bool) (stun : ℚ) :
    ∀ (seq : List Bool) (latch : Bool),
      (edgeRun alive stun latch seq).1 = seq.getLastD latch := by
  intro seq
  induction seq with
  | nil => intro latch; rfl
  | cons p ps ih =>
    intro latch
    simp only [edgeRun, ih p, List.getLastD_cons]

theorem edgeRun_blocked (alive : Bool) (stun : ℚ)
    (h : alive = false ∨ 0 < stun) :
    ∀ (seq : List Bool) (latch : Bool), (edgeRun alive stun latch seq).2 = 0 := by
  have hf : ∀ latch p, edgeFires latch p alive stun = false := by
    intro latch p
    rcases h with h | h
    · simp [edgeFires, h]
    · simp [edgeFires, not_le.mpr h]
  intro seq
  induction seq with
  | nil => intro latch; rfl
  | cons p ps ih =>
    intro latch
    simp only [edgeRun, hf, ih p]
    simp

/-- C3: actions are edge-triggered.  (1) The five-tick input sequence
press, press, press, release, press fed to an alive, unstunned fighter
fires the action exactly twice.  (2) The gate passes only on a
not-pressed → pressed transition of an alive, unstunned fighter.
(3) A dead or stunned fighter fires no action on any input sequence,
(4) yet its latch still tracks the inputs (final latch = last input). -/
theorem arena_action_edge_trigger (alive : Bool) (stun : ℚ) :
    (edgeRun true 0 false [true, true, true, false, true]).2 = 2
    ∧ (∀ latch pressed : Bool, edgeFires latch pressed alive stun = true →
        pressed = true ∧ latch = false ∧ alive = true ∧ stun ≤ 0)
    ∧ (alive = false ∨ 0 < stun →
        ∀ (seq : List Bool) (latch : Bool), (edgeRun alive stun latch seq).2 = 0)
    ∧ (∀ (seq : List Bool) (latch : Bool),
        (edgeRun alive stun latch seq).1 = seq.getLastD latch) := by
  refine ⟨by decide, ?_, fun h => edgeRun_blocked alive stun h, edgeRun_latch alive stun⟩
  intro latch pressed h
  simp only [edgeFires, Bool.and_eq_true, decide_eq_true_eq] at h
  exact ⟨h.1.1.1, by simpa using h.1.1.2, h.1.2, h.2⟩

/-- Witness for C3: a stunned fighter holding the button fires nothing
while its latch still ends up set. -/
theorem arena_action_edge_trigger_witness :
    (edgeRun true (0 : ℚ) false [true, true, true, false, true]).2 = 2
    ∧ (edgeRun true (5 : ℚ) false [true, true]).2 = 0
    ∧ (edgeRun true (5 : ℚ) false [true, true]).1 = true :=
  ⟨(arena_action_edge_trigger true 0).1,
   (arena_action_edge_trigger true 5).2.2.1 (Or.inr (by norm_num)) [true, true] false,
   (arena_action_edge_trigger true 5).2.2.2 [true, true] false⟩

/-! ## Health invariant and hit effects (`ArenaRoom._attack`, `_ko_fighter`,
respawn handling in `ArenaRoom.tick`) -/

/-- C4: for every health-writing operation of the simulation — stat
re-derivation (join / character select / buff expiry), attack-hit
resolution including its knock-out check, knock-out, (re)spawn and the
respawn branch of `tick` — health stays within `[0, max_health]`; a hit
knocks the target out exactly when it brings health to or below zero;
knock-out pins health at zero, and while the respawn timer has not yet
elapsed the dead fighter's health (and alive flag) are untouched, while
the timer elapsing heals it back to `max_health`. -/
theorem arena_health_invariant (f : Fighter) (op : FighterOp)
    (p : HitParams) (nx ny dt sx sy : ℚ) (attackerId : ℕ)
    (hwf : op.wf) (hinv : HpInv f) (hdt : 0 ≤ dt) :
    HpInv (applyFighterOp op f)
    ∧ (f.alive = true →
        ((resolveHit p nx ny attackerId f).alive = false ↔
          f.hp - max 1 p.damage_base ≤ 0))
    ∧ (koVictim f).hp = 0
    ∧ (dt < f.respawn_timer →
        (respawnTick dt sx sy f).hp = f.hp ∧ (respawnTick dt sx sy f).alive = f.alive)
    ∧ (0 < f.respawn_timer → f.respawn_timer ≤ dt →
        (respawnTick dt sx sy f).hp = f.max_hp
        ∧ (respawnTick dt sx sy f).alive = true) := by
  obtain ⟨h0, hm⟩ := hinv
  have hmax0 : (0 : ℚ) ≤ f.max_hp := le_trans h0 hm
  refine ⟨?_, ?_, rfl, ?_, ?_⟩
  · cases op with
    | stats c =>
      have hwf' : (0 : ℚ) ≤ c.hp := hwf
      simp only [applyFighterOp, applyCharacterStats, HpInv]
      constructor
      · by_cases hz : f.hp = 0
        · rw [if_pos hz]
          exact le_min hwf' hwf'
        · rw [if_neg hz]
          exact le_min h0 hwf'
      · exact min_le_right _ _
    | hit q mx my aid =>
      simp only [applyFighterOp, resolveHit]
      by_cases hko : (hitTarget q mx my aid f).hp ≤ 0
      · rw [if_pos hko]
        simp only [HpInv, koVictim, hitTarget]
        exact ⟨le_refl 0, hmax0⟩
      · rw [if_neg hko]
        push_neg at hko
        simp only [hitTarget] at hko
        simp only [HpInv, hitTarget]
        refine ⟨hko.le, ?_⟩
        have hdpos : (0 : ℚ) < max 1 q.damage_base :=
          lt_of_lt_of_le one_pos (le_max_left _ _)
        linarith
    | ko =>
      simp only [applyFighterOp, koVictim, HpInv]
      exact ⟨le_refl 0, hmax0⟩
    | spawn a b =>
      simp only [applyFighterOp, respawnFighter, HpInv]
      exact ⟨hmax0, le_refl _⟩
    | tickRespawn d a b =>
      simp only [applyFighterOp, respawnTick]
      by_cases h1 : 0 < f.respawn_timer
      · simp only [if_pos h1]
        by_cases h2 : max 0 (f.respawn_timer - d) ≤ 0
        · simp only [if_pos h2, respawnFighter, HpInv]
          exact ⟨hmax0, le_refl _⟩
        · simp only [if_neg h2, HpInv]
          exact ⟨h0, hm⟩
      · simp only [if_neg h1, HpInv]
        exact ⟨h0, hm⟩
  · intro halive
    simp only [resolveHit, hitTarget]
    by_cases hko : f.hp - max 1 p.damage_base ≤ 0
    · simp only [if_pos hko, koVictim]
      exact iff_of_true trivial hko
    · simp only [if_neg hko, halive]
      exact iff_of_false (by simp) hko
  · intro hlt
    have h1 : 0 < f.respawn_timer := lt_of_le_of_lt hdt hlt
    have h2 : ¬ max 0 (f.respawn_timer - dt) ≤ 0 := by
      push_neg
      exact lt_max_of_lt_right (by linarith)
    simp only [respawnTick, if_pos h1, if_neg h2]
    exact ⟨trivial, trivial⟩
  · intro h1 h2
    have h3 : max 0 (f.respawn_timer - dt) ≤ 0 := max_le (le_refl 0) (by linarith)
    simp only [respawnTick, if_pos h1, if_pos h3, respawnFighter]
    exact ⟨trivial, trivial⟩

/-- Witness for C4 at a concrete fighter and operation. -/
theorem arena_health_invariant_witness :
    HpInv (applyFighterOp (FighterOp.hit ⟨40, 140, 1/4⟩ 1 0 7)
      { hp := 30, max_hp := 100 : Fighter })
    ∧ (resolveHit ⟨40, 140, 1/4⟩ 1 0 7 { hp := 30, max_hp := 100 : Fighter }).alive
        = false := by
  have h := arena_health_invariant { hp := 30, max_hp := 100 : Fighter }
    (FighterOp.hit ⟨40, 140, 1/4⟩ 1 0 7) ⟨40, 140, 1/4⟩ 1 0 0 0 0 7
    trivial ⟨by norm_num, by norm_num⟩ le_rfl
  exact ⟨h.1, (h.2.1 rfl).mpr (by norm_num)⟩

/-- C5: effects of one resolved hit.  Under the conditions the floors do
not engage (ability damage at least 1 after scaling, knockback resistance
at least 0.25, scaled knockback at least 50 — all true for the shipped
tuning), the target loses exactly the ability damage scaled by the
attacker's damage multiplier, gains knockback velocity scaled inversely
by its knockback resistance, has its stun timer raised to the ability's
stun value without shortening a longer stun, and the attacker's ultimate
charge rises by 0.8 per point of damage dealt, capped at
`ULT_CHARGE_MAX`. -/
theorem arena_hit_effects (p : HitParams) (nx ny : ℚ) (attackerId : ℕ)
    (t a : Fighter) (hd : 1 ≤ p.damage_base) (hr : 1/4 ≤ t.kb_resist)
    (hkb : 50 ≤ p.kb / t.kb_resist) :
    (hitTarget p nx ny attackerId t).hp = t.hp - p.damage_base
    ∧ (hitTarget p nx ny attackerId t).vx = t.vx + nx * (p.kb / t.kb_resist)
    ∧ (hitTarget p nx ny attackerId t).vy = t.vy + ny * (p.kb / t.kb_resist)
    ∧ (hitTarget p nx ny attackerId t).stun_timer = max t.stun_timer p.stun
    ∧ t.stun_timer ≤ (hitTarget p nx ny attackerId t).stun_timer
    ∧ (hitTarget p nx ny attackerId t).last_hit_by = some attackerId
    ∧ (chargeOnHit p a).ult_charge =
        min ULT_CHARGE_MAX (a.ult_charge + p.damage_base * (4/5))
    ∧ (chargeOnHit p a).ult_charge ≤ ULT_CHARGE_MAX := by
  have hdmg : max 1 p.damage_base = p.damage_base := max_eq_right hd
  have hres : max (1/4 : ℚ) t.kb_resist = t.kb_resist := max_eq_right hr
  have hscale : max (50 : ℚ) (p.kb / max (1/4) t.kb_resist) = p.kb / t.kb_resist := by
    rw [hres]; exact max_eq_right hkb
  refine ⟨?_, ?_, ?_, rfl, le_max_left _ _, rfl, ?_, min_le_left _ _⟩
  · simp only [hitTarget, hdmg]
  · simp only [hitTarget, hscale]
  · simp only [hitTarget, hscale]
  · simp only [chargeOnHit, hdmg]

/-- Witness for C5: a 10-damage basic-style hit against a default
fighter. -/
theorem arena_hit_effects_witness :
    (hitTarget ⟨10, 140, 1/4⟩ 1 0 3 { : Fighter }).hp = 100 - 10
    ∧ (chargeOnHit ⟨10, 140, 1/4⟩ { : Fighter }).ult_charge =
        min ULT_CHARGE_MAX (0 + 10 * (4/5)) := by
  have h := arena_hit_effects ⟨10, 140, 1/4⟩ 1 0 3 { : Fighter } { : Fighter }
    (by norm_num) (by norm_num) (by norm_num)
  exact ⟨h.1, h.2.2.2.2.2.2.1⟩

/-! ## Match finishing and stats recording
(`ArenaRoom.finish_match`, `_apply_stats_results`, `_ko_fighter`) -/

/-- One `scores[f.team] = scores.get(f.team, 0) + f.score_kos` step of
`ArenaRoom._team_scores`, on an association list in first-insertion
order (Python dict iteration order). -/
def bumpScore : List (ℤ × ℕ) → ℤ → ℕ → List (ℤ × ℕ)
  | [], t, s => [(t, s)]
  | (t', s') :: rest, t, s =>
    if t' = t then (t', s' + s) :: rest else (t', s') :: bumpScore rest t s

/-- `ArenaRoom._team_scores`. -/
def ArenaRoom.teamScores (r : ArenaRoom) : List (ℤ × ℕ) :=
  r.players.foldl (fun acc uid =>
    match r.fighters uid with
    | some f => bumpScore acc f.team f.score_kos
    | none => acc) []

/-- `max_k` of the individual branch of `_apply_stats_results`
(`max(..., default=0)` over the players that have fighters). -/
def ArenaRoom.maxKos (r : ArenaRoom) : ℕ :=
  (r.players.filterMap fun uid => (r.fighters uid).map Fighter.score_kos).foldr max 0

/-- `leaders` of the individual branch of `_apply_stats_results`. -/
def ArenaRoom.individualLeaders (r : ArenaRoom) : List ℕ :=
  r.players.filter fun uid =>
    match r.fighters uid with
    | some f => decide (f.score_kos = r.maxKos)
    | none => false

/-- The `winners` set of `_apply_stats_results` for the non-practice,
non-boss branches.  In team mode the code takes the arg-max team and the
list of teams tied with it; since winners are only declared when that
list is a singleton, the singleton member is the arg-max team. -/
def ArenaRoom.statsWinners (r : ArenaRoom) : List ℕ :=
  if r.mode_name = "teams" then
    let ts := r.teamScores
    if ts.isEmpty then []
    else
      let best := (ts.map Prod.snd).foldr max 0
      match ts.filter (fun tp => tp.2 == best) with
      | [tp] =>
        r.players.filter fun uid =>
          match r.fighters uid with
          | some f => f.team == tp.1
          | none => false
      | _ => []
  else if r.individualLeaders.length = 1 then r.individualLeaders
  else []

/-- `ArenaRoom._apply_stats_results`, returning the list of
`db.apply_match_result` invocations it performs, in order. -/
def ArenaRoom.applyStatsResults (r : ArenaRoom) : List DbCall :=
  if r.mode_name = "practice" then []
  else if r.players.isEmpty then []
  else if r.mode_name = "boss" then
    let humansWin := match r.boss_fighter with
      | some b => !b.alive
      | none => false
    r.players.filterMap fun uid => (r.fighters uid).map fun f =>
      ⟨f.user_id, humansWin, f.score_kos, f.score_deaths⟩
  else
    let winners := r.statsWinners
    r.players.filterMap fun uid => (r.fighters uid).bind fun f =>
      if winners.isEmpty then none
      else some ⟨uid, decide (uid ∈ winners), f.score_kos, f.score_deaths⟩

/-- `ArenaRoom.finish_match`: a no-op once `state == "ended"`; otherwise
marks the room ended, applies stats results unless already applied
(guard flag `_results_applied`), and appends one `arena_end` event. -/
def ArenaRoom.finish_match (r : ArenaRoom) (reason : String) : ArenaRoom :=
  if r.state = "ended" then r
  else
    let r1 := { r with state := "ended", ended := true }
    let r2 :=
      if !r1.results_applied then
        { r1 with
          dbCalls := r1.dbCalls ++ r1.applyStatsResults
          results_applied := true }
      else r1
    { r2 with outbox := r2.outbox ++ [Event.arenaEnd reason] }

/-- `ArenaRoom._ko_fighter`.  The victim is passed (and returned) by
value; in the source the victim object is the same object stored in
`fighters`/`boss_fighter`, so the caller owns writing it back.  Python's
`if killer_id and killer_id in self.fighters` is falsy both for `None`
and for the boss id `0`, and the boss is never a key of `fighters`. -/
def ArenaRoom.koFighterUpdate (r : ArenaRoom) (victim : Fighter)
    (killerId : Option ℕ) : Fighter × ArenaRoom :=
  let v := koVictim victim
  let r1 :=
    match killerId with
    | some k =>
      if k ≠ 0 then
        match r.fighters k with
        | some kf =>
          { r with fighters := fun u =>
              if u = k then some (koKillerReward kf) else r.fighters u }
        | none => r
      else r
    | none => r
  let r2 := { r1 with
    event_accum := r1.event_accum ++ [Event.ko victim.user_id killerId] }
  if r.mode_name = "boss" ∧ victim.user_id = 0 then (v, r2.finish_match "boss_down")
  else (v, r2)

theorem finish_match_keeps_fighters (r : ArenaRoom) (reason : String) :
    (r.finish_match reason).fighters = r.fighters := by
  unfold ArenaRoom.finish_match
  by_cases h : r.state = "ended"
  · rw [if_pos h]
  · rw [if_neg h]
    by_cases h2 : r.results_applied <;> simp [h2]

/-- C1: the first `finish_match` on a live room ends it, performs the
stats-recording calls for the computed participants exactly once, and
emits exactly one `arena_end` event; any later `finish_match` on an
ended room (with any reason) is the identity — no further stats calls,
no further events, no state change. -/
theorem finish_match_applies_once (r : ArenaRoom) (reason : String)
    (hs : r.state ≠ "ended") (ha : r.results_applied = false) :
    (r.finish_match reason).state = "ended"
    ∧ (r.finish_match reason).ended = true
    ∧ (r.finish_match reason).results_applied = true
    ∧ (r.finish_match reason).dbCalls = r.dbCalls ++ r.applyStatsResults
    ∧ (r.finish_match reason).outbox = r.outbox ++ [Event.arenaEnd reason]
    ∧ (∀ (s : ArenaRoom) (reason2 : String),
        s.state = "ended" → s.finish_match reason2 = s) := by
  have hgen : ∀ (s : ArenaRoom) (reason2 : String),
      s.state = "ended" → s.finish_match reason2 = s := by
    intro s r2 h
    unfold ArenaRoom.finish_match
    rw [if_pos h]
  unfold ArenaRoom.finish_match
  rw [if_neg hs]
  simp only [ha, Bool.not_false, if_true]
  exact ⟨trivial, trivial, trivial, rfl, trivial, hgen⟩

/-- Shared example room: a duel with players 1 (3 KOs) and 2 (1 KO, 3
deaths). -/
def duelRoom : ArenaRoom :=
  { room_id := "d1"
    mode_name := "duel"
    state := "running"
    players := [1, 2]
    fighters := fun u =>
      if u = 1 then some { user_id := 1, score_kos := 3 }
      else if u = 2 then some { user_id := 2, score_kos := 1, score_deaths := 3 }
      else none
    boss_fighter := none
    ended := false
    results_applied := false
    match_seconds := 90
    time_left := 0
    outbox := []
    event_accum := []
    dbCalls := [] }

/-- Witness for C1 on the concrete duel room. -/
theorem finish_match_applies_once_witness :
    (duelRoom.finish_match "score_or_time").dbCalls
        = duelRoom.dbCalls ++ duelRoom.applyStatsResults
    ∧ (duelRoom.finish_match "score_or_time").finish_match "time"
        = duelRoom.finish_match "score_or_time" := by
  have h := finish_match_applies_once duelRoom "score_or_time" (by decide) rfl
  exact ⟨h.2.2.2.1, h.2.2.2.2.2 _ "time" h.1⟩

/-- C6 (amended): knocking out a victim clears its alive flag, pins
health to zero, zeroes velocity, starts the fixed respawn timer and
increments its death counter; and whenever the killer id is a *nonzero*
user present in the room's fighter map, that killer's kill counter
increments by one and it is granted 20 ultimate charge (capped).  A last
hitter that is the boss (user id 0) or a departed player receives no
credit. -/
theorem ko_fighter_effects (r : ArenaRoom) (victim : Fighter)
    (killerId : Option ℕ) :
    (r.koFighterUpdate victim killerId).1.alive = false
    ∧ (r.koFighterUpdate victim killerId).1.hp = 0
    ∧ (r.koFighterUpdate victim killerId).1.vx = 0
    ∧ (r.koFighterUpdate victim killerId).1.vy = 0
    ∧ (r.koFighterUpdate victim killerId).1.respawn_timer = RESPAWN_SECONDS
    ∧ (r.koFighterUpdate victim killerId).1.score_deaths = victim.score_deaths + 1
    ∧ (∀ k kf, killerId = some k → k ≠ 0 → r.fighters k = some kf →
        (r.koFighterUpdate victim killerId).2.fighters k = some (koKillerReward kf)
        ∧ (koKillerReward kf).score_kos = kf.score_kos + 1
        ∧ (koKillerReward kf).ult_charge = min ULT_CHARGE_MAX (kf.ult_charge + 20)) := by
  have hfst : (r.koFighterUpdate victim killerId).1 = koVictim victim := by
    unfold ArenaRoom.koFighterUpdate
    by_cases hb : r.mode_name = "boss" ∧ victim.user_id = 0 <;> simp [hb]
  refine ⟨?_, ?_, ?_, ?_, ?_, ?_, ?_⟩
  · rw [hfst]; rfl
  · rw [hfst]; rfl
  · rw [hfst]; rfl
  · rw [hfst]; rfl
  · rw [hfst]; rfl
  · rw [hfst]; rfl
  · intro k kf hk hk0 hkf
    refine ⟨?_, rfl, rfl⟩
    subst hk
    simp only [ArenaRoom.koFighterUpdate, hkf, if_pos hk0]
    by_cases hb : r.mode_name = "boss" ∧ victim.user_id = 0
    · rw [if_pos hb]
      rw [finish_match_keeps_fighters]
      simp
    · rw [if_neg hb]
      simp

/-- Example room for the boss-killer counterexample: a boss-mode room
whose human player 1 has just been hit by the boss (user id 0). -/
def bossKoRoom : ArenaRoom :=
  { room_id := "b1"
    mode_name := "boss"
    state := "running"
    players := [1]
    fighters := fun u =>
      if u = 1 then some { user_id := 1, hp := 5, last_hit_by := some 0 }
      else none
    boss_fighter := some { user_id := 0, character_id := "hannigan", ult_charge := 100 }
    ended := false
    results_applied := false
    match_seconds := 90
    time_left := 30
    outbox := []
    event_accum := []
    dbCalls := [] }

/-- C6 counterexample: the boss (user id 0) is the victim's last hitter
— a killer is identified — yet after `_ko_fighter` *no* kill counter in
the room has incremented: Python's `if killer_id` treats the boss id 0
as falsy (and the boss is not in the fighters map), so nobody is
credited, contradicting the claim as stated. -/
theorem ko_boss_killer_uncredited :
    (bossKoRoom.koFighterUpdate
        { user_id := 1, hp := 5, last_hit_by := some 0 } (some 0)).2.boss_fighter
      = some { user_id := 0, character_id := "hannigan", ult_charge := 100 }
    ∧ (Fighter.score_kos { user_id := 0, character_id := "hannigan", ult_charge := 100 }) = 0
    ∧ ((bossKoRoom.koFighterUpdate
        { user_id := 1, hp := 5, last_hit_by := some 0 } (some 0)).2.fighters 1).map
          Fighter.score_kos = some 0
    ∧ (bossKoRoom.koFighterUpdate
        { user_id := 1, hp := 5, last_hit_by := some 0 } (some 0)).2.fighters 0 = none := by
  decide

/-- Example killer for the C6 witness. -/
def koRewardKiller : Fighter := { user_id := 2, score_kos := 4, ult_charge := 90 }

/-- Example room for the C6 witness: player 2 knocked out player 1. -/
def duelKoRoom : ArenaRoom :=
  { room_id := "d2"
    mode_name := "duel"
    state := "running"
    players := [1, 2]
    fighters := fun u =>
      if u = 1 then some { user_id := 1, hp := 5 }
      else if u = 2 then some koRewardKiller
      else none
    boss_fighter := none
    ended := false
    results_applied := false
    match_seconds := 90
    time_left := 40
    outbox := []
    event_accum := []
    dbCalls := [] }

/-- Witness for C6 (amended) with a nonzero killer present in the map. -/
theorem ko_fighter_effects_witness :
    (duelKoRoom.koFighterUpdate { user_id := 1, hp := 5 } (some 2)).1.hp = 0
    ∧ (duelKoRoom.koFighterUpdate { user_id := 1, hp := 5 } (some 2)).2.fighters 2
        = some (koKillerReward koRewardKiller) := by
  have h := ko_fighter_effects duelKoRoom { user_id := 1, hp := 5 } (some 2)
  exact ⟨h.2.1, (h.2.2.2.2.2.2 2 koRewardKiller rfl (by decide) (by decide)).1⟩

theorem dbCalls_count_zero (F : ℕ → Option Fighter) (g : ℕ → Fighter → DbCall)
    (hg : ∀ u fu, (g u fu).user_id = u) (uid : ℕ) :
    ∀ l : List ℕ, uid ∉ l →
      ((l.filterMap fun u => (F u).map (g u)).filter
        (fun c => c.user_id == uid)).length = 0 := by
  intro l
  induction l with
  | nil => intro _; rfl
  | cons a l ih =>
    intro hmem
    have ha : a ≠ uid := fun h => hmem (h ▸ List.mem_cons_self a l)
    have hl : uid ∉ l := fun h => hmem (List.mem_cons_of_mem a h)
    cases hFa : F a with
    | none => simp only [List.filterMap_cons, hFa, Option.map_none']; exact ih hl
    | some fa =>
      simp only [List.filterMap_cons, hFa, Option.map_some', List.filter_cons]
      rw [show ((g a fa).user_id == uid) = false by simp [hg, ha]]
      exact ih hl

theorem dbCalls_count_one (F : ℕ → Option Fighter) (g : ℕ → Fighter → DbCall)
    (hg : ∀ u fu, (g u fu).user_id = u) :
    ∀ l : List ℕ, l.Nodup → ∀ uid f, uid ∈ l → F uid = some f →
      ((l.filterMap fun u => (F u).map (g u)).filter
        (fun c => c.user_id == uid)).length = 1 := by
  intro l
  induction l with
  | nil => intro _ uid f h; exact absurd h (List.not_mem_nil uid)
  | cons a l ih =>
    intro hnd uid f hmem hF
    rcases List.mem_cons.mp hmem with rfl | hmem'
    · have hnl : uid ∉ l := (List.nodup_cons.mp hnd).1
      simp only [List.filterMap_cons, hF, Option.map_some', List.filter_cons]
      rw [show ((g uid f).user_id == uid) = true by simp [hg]]
      simp [dbCalls_count_zero F g hg uid l hnl]
    · have ha : a ≠ uid := by
        rintro rfl
        exact (List.nodup_cons.mp hnd).1 hmem'
      have hrec := ih (List.nodup_cons.mp hnd).2 uid f hmem' hF
      cases hFa : F a with
      | none => simp only [List.filterMap_cons, hFa, Option.map_none']; exact hrec
      | some fa =>
        simp only [List.filterMap_cons, hFa, Option.map_some', List.filter_cons]
        rw [show ((g a fa).user_id == uid) = false by simp [hg, ha]]
        exact hrec

/-- C8: in a non-practice, non-boss, non-teams (individual) arena match,
when there is a sole highest scorer the stats hook is called exactly
once per participant — `win=true` for the sole leader, `win=false` for
everyone else — and when the highest score is shared the hook is called
for nobody. -/
theorem stats_individual_sole_winner (r : ArenaRoom)
    (hm1 : r.mode_name ≠ "practice") (hm2 : r.mode_name ≠ "boss")
    (hm3 : r.mode_name ≠ "teams") (hne : r.players ≠ []) :
    (∀ w, r.individualLeaders = [w] →
      r.applyStatsResults = r.players.filterMap fun uid =>
        (r.fighters uid).map fun f =>
          (⟨uid, decide (uid = w), f.score_kos, f.score_deaths⟩ : DbCall))
    ∧ (∀ w, r.individualLeaders = [w] → r.players.Nodup →
        ∀ uid f, uid ∈ r.players → r.fighters uid = some f →
          (r.applyStatsResults.filter fun c => c.user_id == uid).length = 1)
    ∧ (2 ≤ r.individualLeaders.length → r.applyStatsResults = []) := by
  have hemp : r.players.isEmpty = false := by
    cases hp : r.players with
    | nil => exact absurd hp hne
    | cons a l => rfl
  have hA : ∀ w, r.individualLeaders = [w] →
      r.applyStatsResults = r.players.filterMap fun uid =>
        (r.fighters uid).map fun f =>
          (⟨uid, decide (uid = w), f.score_kos, f.score_deaths⟩ : DbCall) := by
    intro w hw
    unfold ArenaRoom.applyStatsResults
    rw [if_neg hm1, if_neg (by simp [hemp]), if_neg hm2]
    have hwin : r.statsWinners = [w] := by
      unfold ArenaRoom.statsWinners
      rw [if_neg hm3, hw]
      simp
    rw [hwin]
    refine List.filterMap_congr ?_
    intro uid _
    cases hf : r.fighters uid with
    | none => rfl
    | some f =>
      by_cases huw : uid = w
      · subst huw; simp
      · simp [huw]
  refine ⟨hA, ?_, ?_⟩
  · intro w hw hnd uid f hmem hf
    rw [hA w hw]
    exact dbCalls_count_one r.fighters
      (fun u fu => (⟨u, decide (u = w), fu.score_kos, fu.score_deaths⟩ : DbCall))
      (fun u fu => rfl) r.players hnd uid f hmem hf
  · intro h2
    unfold ArenaRoom.applyStatsResults
    rw [if_neg hm1, if_neg (by simp [hemp]), if_neg hm2]
    have hwin : r.statsWinners = [] := by
      unfold ArenaRoom.statsWinners
      rw [if_neg hm3, if_neg (by omega)]
    rw [hwin]
    rw [List.filterMap_eq_nil_iff]
    intro uid _
    cases r.fighters uid <;> rfl

/-- Witness for C8: in the duel room, player 1 (3 KOs) is the sole
leader over player 2 (1 KO): the hook is called once per participant
with the right win flags. -/
theorem stats_individual_sole_winner_witness :
    duelRoom.applyStatsResults
      = [⟨1, true, 3, 0⟩, ⟨2, false, 1, 3⟩] := by
  have h := (stats_individual_sole_winner duelRoom (by decide) (by decide)
    (by decide) (by decide)).1 1 (by decide)
  rw [h]
  decide

/-! ## Ultimates (`_handle_action_edges` ult gate, `_attack` for `kind == "ult"`) -/

/-- The ultimate-specific part of the activation condition in
`ArenaRoom._handle_action_edges`:
`fighter.ult_cd <= 0 and (fighter.ult_charge >= ULT_CHARGE_MAX or
fighter.user_id == 0)`. -/
def ultEdgeGate (f : Fighter) : Bool :=
  decide (f.ult_cd ≤ 0)
    && (decide (ULT_CHARGE_MAX ≤ f.ult_charge) || decide (f.user_id = 0))

/-- `ArenaRoom._attack` specialised to `kind == "ult"`.  `baseRange`,
`baseDamage`, `baseKb`, `baseStun` stand for `BASIC_RANGE`,
`BASIC_DAMAGE`, `BASIC_KB`, `STUN_ON_HIT_SECONDS` from the missing
`game/constants.py`; the first three only matter for a character id
outside the tuning chain.  Each element of `targets` is one eligible
enemy (as produced by `_enemy_targets`) paired with the unit direction
`(nx, ny)` from attacker to target and their distance `dist` exactly as
`_norm` computes them (`math.hypot` has no rational counterpart, so the
geometry is supplied as data).  A non-boss attacker is always a value of
the room's fighters map, so `_ko_fighter`'s killer reward lands on the
attacker itself; the boss (id 0) is credited to nobody.  The `boss_down`
room transition `_ko_fighter` can trigger is room-level state handled by
`koFighterUpdate` and does not alter fighter fields.  Returns the
attacker, the target states in order, and the emitted events. -/
def ultAttack (baseRange baseDamage baseKb baseStun : ℚ) (a : Fighter)
    (targets : List (Fighter × ℚ × ℚ × ℚ)) : Fighter × List Fighter × List Event :=
  if !a.alive then (a, targets.map (·.1), [])
  else if a.ult_charge < ULT_CHARGE_MAX ∧ a.user_id ≠ 0 then (a, targets.map (·.1), [])
  else if a.character_id = "jovan" then
    ({ a with ult_buff_timer := 6, ult_charge := 0 }, targets.map (·.1),
     [Event.buff a.user_id "Lock In"])
  else if a.character_id = "simon" then
    ({ a with ult_buff_timer := 5, ult_charge := 0, slow_mult := 27/20, slow_timer := 5 },
     targets.map (·.1), [Event.buff a.user_id "Frame Advantage"])
  else
    let tuned : ℚ × ℚ × ℚ × Fighter :=
      if a.character_id = "big_t" then (120, 30 * a.damage_scale, 310, a)
      else if a.character_id = "edward" then
        (95, 20 * a.damage_scale, 210,
         { a with hitbox_scale := 7/10, slow_mult := 59/50, slow_timer := 3 })
      else if a.character_id = "griffin" then (130, 34 * a.damage_scale, 330, a)
      else if a.character_id = "hannigan" then (145, 28 * a.damage_scale, 290, a)
      else (baseRange, baseDamage * a.damage_scale, baseKb, a)
    let a0 := { tuned.2.2.2 with ult_charge := 0 }
    let dmg := if 0 < a.ult_buff_timer then tuned.2.1 * (59/50) else tuned.2.1
    let kb := if 0 < a.ult_buff_timer then tuned.2.2.1 * (28/25) else tuned.2.2.1
    let p : HitParams := ⟨dmg, kb, baseStun⟩
    let res := targets.foldl (fun st tgt =>
      let t := tgt.1
      if tuned.1 + t.radius < tgt.2.2.2 then (st.1, st.2.1 ++ [t], st.2.2.1, st.2.2.2)
      else
        let t1 := hitTarget p tgt.2.1 tgt.2.2.1 st.1.user_id t
        let a1 := chargeOnHit p st.1
        if t1.hp ≤ 0 then
          let a2 := if a.user_id ≠ 0 then koKillerReward a1 else a1
          (a2, st.2.1 ++ [koVictim t1],
           st.2.2.1 ++ [Event.ko t.user_id (some st.1.user_id),
             Event.hit st.1.user_id t.user_id (max 1 dmg)], true)
        else
          (a1, st.2.1 ++ [t1],
           st.2.2.1 ++ [Event.hit st.1.user_id t.user_id (max 1 dmg)], true))
      ((a0, [], [], false) : Fighter × List Fighter × List Event × Bool)
    (res.1, res.2.1,
     if res.2.2.2 then res.2.2.1 else res.2.2.1 ++ [Event.whiff a.user_id "ult"])

/-- C7 (amended): a non-boss fighter's ultimate activates only with the
charge meter at its maximum (the boss, user id 0, is exempt); the meter
is reset to zero at the moment of use — so after a resolution with no
eligible target it is exactly zero — but charge granted for the
ultimate's own hits (0.8 per damage point, plus any kill reward) accrues
during resolution, so after a hitting resolution the meter holds that
accrued charge rather than zero. -/
theorem ult_full_charge_gate_and_reset (f : Fighter)
    (baseRange baseDamage baseKb baseStun : ℚ)
    (targets : List (Fighter × ℚ × ℚ × ℚ)) :
    (f.user_id ≠ 0 → ultEdgeGate f = true → f.ult_charge ≤ ULT_CHARGE_MAX →
      f.ult_charge = ULT_CHARGE_MAX)
    ∧ (f.user_id = 0 → f.ult_cd ≤ 0 → ultEdgeGate f = true)
    ∧ (f.user_id ≠ 0 → f.ult_charge < ULT_CHARGE_MAX →
        ultAttack baseRange baseDamage baseKb baseStun f targets
          = (f, targets.map (·.1), []))
    ∧ (f.alive = true → (ULT_CHARGE_MAX ≤ f.ult_charge ∨ f.user_id = 0) →
        (ultAttack baseRange baseDamage baseKb baseStun f []).1.ult_charge = 0) := by
  refine ⟨?_, ?_, ?_, ?_⟩
  · intro h0 hgate hle
    simp only [ultEdgeGate, Bool.and_eq_true, Bool.or_eq_true, decide_eq_true_eq] at hgate
    rcases hgate.2 with h | h
    · exact le_antisymm hle h
    · exact absurd h h0
  · intro h0 hcd
    simp only [ultEdgeGate, Bool.and_eq_true, Bool.or_eq_true, decide_eq_true_eq]
    exact ⟨hcd, Or.inr h0⟩
  · intro h0 hlt
    unfold ultAttack
    by_cases halive : f.alive
    · rw [if_neg (by simp [halive]), if_pos ⟨hlt, h0⟩]
    · rw [if_pos (by simp [halive])]
  · intro halive hgate
    have hng : ¬(f.ult_charge < ULT_CHARGE_MAX ∧ f.user_id ≠ 0) := by
      rcases hgate with h | h
      · exact fun hc => absurd hc.1 (not_lt.mpr h)
      · exact fun hc => hc.2 h
    unfold ultAttack
    rw [if_neg (by simp [halive]), if_neg hng]
    by_cases h1 : f.character_id = "jovan"
    · rw [if_pos h1]
    · rw [if_neg h1]
      by_cases h2 : f.character_id = "simon"
      · rw [if_pos h2]
      · rw [if_neg h2]
        simp

/-- Example attacker/target for C7: Big T at full charge next to a
healthy dummy at distance 50 (attacker at the origin, target at
(30, 40), so `(nx, ny) = (3/5, 4/5)` and `hypot = 50`). -/
def bigTAttacker : Fighter :=
  { user_id := 5, character_id := "big_t", damage_scale := 1, ult_charge := 100 }

def ultTargetDummy : Fighter := { user_id := 6, hp := 200, max_hp := 200 }

/-- C7 counterexample: immediately after Big T's ultimate resolution
completes with one in-range hit (30 damage), the attacker's charge meter
is `min(100, 0 + 30*0.8) = 24`, not zero — the reset happens at use,
before the hit-granted charge of the ultimate's own damage accrues. -/
theorem ult_charge_not_zero_after_hit :
    (ultAttack 70 10 140 (1/4) bigTAttacker
        [(ultTargetDummy, 3/5, 4/5, 50)]).1.ult_charge = 24
    ∧ ((3 : ℚ)/5) * ((3 : ℚ)/5) + ((4 : ℚ)/5) * ((4 : ℚ)/5) = 1
    ∧ (50 : ℚ) ≤ 120 + ultTargetDummy.radius
    ∧ (24 : ℚ) ≠ 0 := by
  refine ⟨?_, by norm_num, by norm_num [ultTargetDummy, Fighter.radius], by norm_num⟩
  simp [ultAttack, bigTAttacker, ultTargetDummy, Fighter.radius, hitTarget,
    chargeOnHit, koVictim, koKillerReward, ULT_CHARGE_MAX]
  norm_num

/-- Witness for C7 (amended): the gate forces a full meter for a
non-boss attacker, and a no-target resolution leaves the meter at
exactly zero. -/
theorem ult_full_charge_gate_and_reset_witness :
    bigTAttacker.ult_charge = ULT_CHARGE_MAX
    ∧ (ultAttack 70 10 140 (1/4) bigTAttacker []).1.ult_charge = 0 := by
  have h := ult_full_charge_gate_and_reset bigTAttacker 70 10 140 (1/4) []
  exact ⟨h.1 (by decide) (by decide) (by decide), h.2.2.2 rfl (Or.inl (by decide))⟩

/-! ## Matchmaker (`src/server/matchmaking.py`) -/

/-- A queue key `(kind, mode)`. -/
abbrev QueueKey := String × String

/-- `QUEUE_RULES` as an association list from queue key to the rule's
`players_needed`. -/
def QUEUE_RULES_LIST : List (QueueKey × ℕ) :=
  [(("arena", "duel"), 2), (("arena", "teams"), 4), (("arena", "ffa"), 4),
   (("arena", "boss"), 2), (("typing", "1v1"), 2), (("pong", "1v1"), 2),
   (("reaction", "1v1"), 2), (("chess", "1v1"), 2)]

/-- Python's `s.strip().lower()`, implemented structurally on the
character list (strip of surrounding whitespace, then lower-casing —
ASCII for every string the rule table can match). -/
def pyNormString (s : String) : String :=
  ⟨((s.data.dropWhile Char.isWhitespace).reverse.dropWhile
      Char.isWhitespace).reverse.map Char.toLower⟩

/-- `normalize_queue`. -/
def normalize_queue (kind mode : String) : QueueKey :=
  let k := pyNormString kind
  let m := pyNormString mode
  let m1 := if (k = "typing" ∨ k = "pong" ∨ k = "reaction" ∨ k = "chess")
      ∧ (m = "" ∨ m = "default") then "1v1" else m
  let m2 := if k = "arena" ∧ (m1 = "" ∨ m1 = "default") then "duel" else m1
  (k, m2)

/-- The `Matchmaker` state.  `queues` is a total function: an absent key
and a stored empty deque are indistinguishable to every operation
(`queue_position`, `queue_snapshot` and the update payloads all treat
them alike), and `_remove_from_queue` pops a deque it empties, keeping
the two representations in sync. -/
structure Matchmaker where
  queues : QueueKey → List ℕ
  user_queue : ℕ → Option QueueKey

/-- `Matchmaker.__init__`. -/
def Matchmaker.start : Matchmaker := ⟨fun _ => [], fun _ => none⟩

/-- `Matchmaker._remove_from_queue` (`deque.remove` drops the first
occurrence, `ValueError` ignored). -/
def Matchmaker.removeFromQueue (mm : Matchmaker) (uid : ℕ) (key : QueueKey) :
    Matchmaker :=
  { mm with queues := fun k =>
      if k = key then (mm.queues key).erase uid else mm.queues k }

/-- The result record of `Matchmaker.join` (the `updates` broadcast
payloads are presentation data derived from the final state and are not
modelled). -/
structure JoinResult where
  ok : Bool
  left : Option QueueKey
  matchList : List (QueueKey × List ℕ)
deriving DecidableEq

/-- The `while len(q) >= rule.players_needed` loop of `Matchmaker.join`:
each iteration dequeues exactly `needed` users from the front, drops
them from `user_queue` and records the match.  Every rule has
`needed ≥ 2`, so each iteration shortens the queue and `q.length` fuel
bounds the iteration count. -/
def matchLoopFuel (needed : ℕ) :
    ℕ → List ℕ → (ℕ → Option QueueKey) → List (List ℕ) →
    List ℕ × (ℕ → Option QueueKey) × List (List ℕ)
  | 0, q, uq, acc => (q, uq, acc)
  | fuel + 1, q, uq, acc =>
    if 0 < needed ∧ needed ≤ q.length then
      matchLoopFuel needed fuel (q.drop needed)
        (fun u => if u ∈ q.take needed then none else uq u)
        (acc ++ [q.take needed])
    else (q, uq, acc)

def matchLoop (needed : ℕ) (q : List ℕ) (uq : ℕ → Option QueueKey)
    (acc : List (List ℕ)) : List ℕ × (ℕ → Option QueueKey) × List (List ℕ) :=
  matchLoopFuel needed q.length q uq acc

/-- The tail of `Matchmaker.join` once the key is validated and any
other queue vacated: append the user to the target queue (idempotently),
point `user_queue` at it, and run the match-forming loop. -/
def Matchmaker.joinCore (mm : Matchmaker) (uid : ℕ) (key : QueueKey)
    (needed : ℕ) (left : Option QueueKey) : Matchmaker × JoinResult :=
  let q0 := mm.queues key
  let q1 := if uid ∈ q0 then q0 else q0 ++ [uid]
  let uq1 : ℕ → Option QueueKey :=
    fun u => if u = uid then some key else mm.user_queue u
  let r := matchLoop needed q1 uq1 []
  ({ queues := fun k => if k = key then r.1 else mm.queues k,
     user_queue := r.2.1 },
   { ok := true, left := left, matchList := r.2.2.map fun g => (key, g) })

/-- `Matchmaker.join`. -/
def Matchmaker.join (mm : Matchmaker) (user_id : ℕ) (kind mode : String) :
    Matchmaker × JoinResult :=
  let key := normalize_queue kind mode
  match List.lookup key QUEUE_RULES_LIST with
  | none => (mm, { ok := false, left := none, matchList := [] })
  | some needed =>
    match mm.user_queue user_id with
    | some current =>
      if current = key then (mm, { ok := true, left := none, matchList := [] })
      else (mm.removeFromQueue user_id current).joinCore user_id key needed
        (some current)
    | none => mm.joinCore user_id key needed none

/-- `Matchmaker.queue_position`: 1-indexed position, `None` when the
queue is empty/absent or the user is not in it. -/
def Matchmaker.queue_position (mm : Matchmaker) (user_id : ℕ) (key : QueueKey) :
    Option ℕ :=
  let q := mm.queues key
  if q.isEmpty then none
  else match q.findIdx? (fun x => x == user_id) with
    | some i => some (i + 1)
    | none => none

/-- Python's `a or b` for an optional string: falls back on `None` and
on the empty string (both falsy). -/
def pyOr (s : Option String) (d : String) : String :=
  match s with
  | none => d
  | some s => if s = "" then d else s

/-- `Matchmaker.leave`: a no-op if the user is not queued, or queued
under a different key than the one requested; returns the new state and
the vacated key. -/
def Matchmaker.leave (mm : Matchmaker) (user_id : ℕ)
    (kind mode : Option String) : Matchmaker × Option QueueKey :=
  match mm.user_queue user_id with
  | none => (mm, none)
  | some current =>
    if kind.isSome ∨ mode.isSome then
      let target := normalize_queue (pyOr kind current.1) (pyOr mode current.2)
      if current ≠ target then (mm, none)
      else
        let mm1 := mm.removeFromQueue user_id current
        ({ mm1 with user_queue := fun u =>
            if u = user_id then none else mm1.user_queue u }, some current)
    else
      let mm1 := mm.removeFromQueue user_id current
      ({ mm1 with user_queue := fun u =>
          if u = user_id then none else mm1.user_queue u }, some current)

/-- `Matchmaker.remove_user`. -/
def Matchmaker.removeUser (mm : Matchmaker) (user_id : ℕ) :
    Matchmaker × Option QueueKey :=
  mm.leave user_id none none

/-- The matchmaker's public operations. -/
inductive MMOp where
  | join (uid : ℕ) (kind mode : String)
  | leave (uid : ℕ) (kind mode : Option String)
  | removeUser (uid : ℕ)

def applyMMOp (mm : Matchmaker) : MMOp → Matchmaker
  | .join uid kind mode => (mm.join uid kind mode).1
  | .leave uid kind mode => (mm.leave uid kind mode).1
  | .removeUser uid => (mm.removeUser uid).1

def applyMMOps (mm : Matchmaker) (ops : List MMOp) : Matchmaker :=
  ops.foldl applyMMOp mm

/-- The queue/user_queue consistency invariant: `user_queue` records key
`k` for `u` exactly when `u` sits in the deque for `k`, and no deque
holds duplicates. -/
def Consistent (mm : Matchmaker) : Prop :=
  (∀ u k, mm.user_queue u = some k ↔ u ∈ mm.queues k)
  ∧ (∀ k, (mm.queues k).Nodup)

theorem lookup_mem_values {α β : Type _} [BEq α] :
    ∀ (l : List (α × β)) (a : α) (b : β),
      List.lookup a l = some b → b ∈ l.map Prod.snd := by
  intro l
  induction l with
  | nil => intro a b h; simp [List.lookup] at h
  | cons p l ih =>
    intro a b h
    obtain ⟨k, v⟩ := p
    simp only [List.lookup] at h
    cases hab : (a == k) with
    | true =>
      rw [hab] at h
      simp only at h
      simp only [List.map_cons, List.mem_cons]
      exact Or.inl (Option.some.inj h).symm
    | false =>
      rw [hab] at h
      simp only at h
      simp only [List.map_cons, List.mem_cons]
      exact Or.inr (ih a b h)

/-- Every rule in `QUEUE_RULES` requires at least two players. -/
theorem queue_rules_ge_two (key : QueueKey) (n : ℕ)
    (h : List.lookup key QUEUE_RULES_LIST = some n) : 2 ≤ n := by
  have hm := lookup_mem_values QUEUE_RULES_LIST key n h
  simp only [QUEUE_RULES_LIST, List.map_cons, List.map_nil, List.mem_cons,
    List.not_mem_nil, or_false] at hm
  rcases hm with h | h | h | h | h | h | h | h <;> omega

theorem matchLoopFuel_short (needed fuel : ℕ) (q : List ℕ)
    (uq : ℕ → Option QueueKey) (acc : List (List ℕ))
    (h : q.length < needed) :
    matchLoopFuel needed fuel q uq acc = (q, uq, acc) := by
  cases fuel with
  | zero => rfl
  | succ f =>
    simp only [matchLoopFuel]
    rw [if_neg (by omega)]

theorem matchLoopFuel_exact (needed fuel : ℕ) (q : List ℕ)
    (uq : ℕ → Option QueueKey) (acc : List (List ℕ))
    (h0 : 0 < needed) (hf : 1 ≤ fuel) (hlen : q.length = needed) :
    matchLoopFuel needed fuel q uq acc
      = ([], fun u => if u ∈ q then none else uq u, acc ++ [q]) := by
  cases fuel with
  | zero => omega
  | succ f =>
    simp only [matchLoopFuel]
    rw [if_pos ⟨h0, le_of_eq hlen.symm⟩]
    rw [← hlen]
    simp only [List.take_length, List.drop_length]
    exact matchLoopFuel_short _ f [] _ _ (by simp only [List.length_nil]; omega)

/-- The matchmaker state after `k < needed` distinct users joined an
initially empty matchmaker for `key`: they queue up in arrival order,
every other queue is empty, and `user_queue` points exactly them at
`key`. -/
def PrefixState (key : QueueKey) (us : List ℕ) (s : Matchmaker) : Prop :=
  s.queues key = us
  ∧ (∀ k, k ≠ key → s.queues k = [])
  ∧ (∀ u, s.user_queue u = if u ∈ us then some key else none)

theorem join_of_unqueued (mm : Matchmaker) (uid : ℕ) (kind mode : String)
    (n : ℕ)
    (hrule : List.lookup (normalize_queue kind mode) QUEUE_RULES_LIST = some n)
    (huq : mm.user_queue uid = none) :
    mm.join uid kind mode
      = mm.joinCore uid (normalize_queue kind mode) n none := by
  simp only [Matchmaker.join]
  rw [hrule, huq]

def joinAll (mm : Matchmaker) (users : List ℕ) (kind mode : String) :
    Matchmaker :=
  users.foldl (fun m u => (m.join u kind mode).1) mm

theorem join_prefix_step (kind mode : String) (n : ℕ)
    (hrule : List.lookup (normalize_queue kind mode) QUEUE_RULES_LIST = some n)
    (us : List ℕ) (u : ℕ) (s : Matchmaker)
    (hs : PrefixState (normalize_queue kind mode) us s)
    (hu : u ∉ us) (hlen : us.length + 1 < n) :
    PrefixState (normalize_queue kind mode) (us ++ [u]) (s.join u kind mode).1
    ∧ (s.join u kind mode).2.matchList = [] := by
  obtain ⟨hq, ho, huq⟩ := hs
  have huqu : s.user_queue u = none := by rw [huq u, if_neg hu]
  rw [join_of_unqueued s u kind mode n hrule huqu]
  simp only [Matchmaker.joinCore, matchLoop]
  rw [hq, if_neg hu]
  rw [matchLoopFuel_short n _ (us ++ [u]) _ []
    (by simp only [List.length_append, List.length_singleton]; omega)]
  refine ⟨⟨?_, ?_, ?_⟩, rfl⟩
  · simp
  · intro k hk
    simp only [if_neg hk]
    exact ho k hk
  · intro u'
    by_cases hu' : u' = u
    · subst hu'
      simp
    · simp [huq u', hu']

theorem joinAll_prefix (kind mode : String) (n : ℕ)
    (hrule : List.lookup (normalize_queue kind mode) QUEUE_RULES_LIST = some n) :
    ∀ us : List ℕ, us.Nodup → us.length < n →
      PrefixState (normalize_queue kind mode) us
        (joinAll Matchmaker.start us kind mode) := by
  intro us
  induction us using List.reverseRecOn with
  | nil =>
    intro _ _
    exact ⟨rfl, fun k _ => rfl, fun u => rfl⟩
  | append_singleton us u ih =>
    intro hnd hlen
    have hsplit := List.nodup_append.mp hnd
    have hu : u ∉ us := fun hmem => hsplit.2.2 hmem (List.mem_singleton_self u)
    simp only [List.length_append, List.length_singleton] at hlen
    have hpre := ih hsplit.1 (by omega)
    have hstep := join_prefix_step kind mode n hrule us u _ hpre hu hlen
    have hfold : joinAll Matchmaker.start (us ++ [u]) kind mode
        = ((joinAll Matchmaker.start us kind mode).join u kind mode).1 := by
      unfold joinAll
      rw [List.foldl_append]
      rfl
    rw [hfold]
    exact hstep.1

/-- The `n`-th distinct join on a queue primed with `n - 1` waiting
users forms exactly one match holding all `n` users in arrival order,
empties the queue, and leaves unrelated users' `user_queue` entries
alone. -/
theorem join_completes_match (kind mode : String) (n : ℕ) (users : List ℕ)
    (uN : ℕ)
    (hrule : List.lookup (normalize_queue kind mode) QUEUE_RULES_LIST = some n)
    (hlen : users.length + 1 = n) (hN : uN ∉ users)
    (s : Matchmaker) (hpre : PrefixState (normalize_queue kind mode) users s) :
    (s.join uN kind mode).2.matchList
      = [(normalize_queue kind mode, users ++ [uN])]
    ∧ (s.join uN kind mode).1.queues (normalize_queue kind mode) = []
    ∧ (∀ u, u ∉ users ++ [uN] →
        (s.join uN kind mode).1.user_queue u = s.user_queue u) := by
  obtain ⟨hq, ho, huq⟩ := hpre
  have huqN : s.user_queue uN = none := by rw [huq uN, if_neg hN]
  rw [join_of_unqueued s uN kind mode n hrule huqN]
  simp only [Matchmaker.joinCore, matchLoop]
  rw [hq, if_neg hN]
  rw [matchLoopFuel_exact n _ (users ++ [uN]) _ [] (by omega)
    (by simp only [List.length_append, List.length_singleton]; omega)
    (by simp only [List.length_append, List.length_singleton]; omega)]
  refine ⟨by simp, by simp, ?_⟩
  intro u hu
  have hu2 : u ≠ uN := by
    intro h
    apply hu
    rw [h]
    exact List.mem_append_right users (List.mem_singleton_self uN)
  simp only [if_neg hu, if_neg hu2]

/-- A user joining a rule-backed queue that is currently empty is not
matched (every rule needs at least two players) and ends up at queue
position 1. -/
theorem join_single_queued (mm : Matchmaker) (uid : ℕ) (kind mode : String)
    (n : ℕ)
    (hrule : List.lookup (normalize_queue kind mode) QUEUE_RULES_LIST = some n)
    (h2 : 2 ≤ n) (huq : mm.user_queue uid = none)
    (hq : mm.queues (normalize_queue kind mode) = []) :
    (mm.join uid kind mode).2.matchList = []
    ∧ (mm.join uid kind mode).1.queues (normalize_queue kind mode) = [uid]
    ∧ (mm.join uid kind mode).1.queue_position uid (normalize_queue kind mode)
        = some 1 := by
  rw [join_of_unqueued mm uid kind mode n hrule huq]
  simp only [Matchmaker.joinCore, matchLoop]
  rw [hq, if_neg (List.not_mem_nil uid)]
  simp only [List.nil_append]
  rw [matchLoopFuel_short n _ [uid] _ []
    (by simp only [List.length_cons, List.length_nil]; omega)]
  refine ⟨rfl, by simp, ?_⟩
  simp [Matchmaker.queue_position, List.findIdx?]

/-- C2: for a queue key whose rule requires `n` players, starting from
an empty matchmaker, after the first `n-1` distinct users join, the
`n`-th distinct user's join forms exactly one match whose `user_ids`
are all `n` users in arrival order; a further distinct user joining the
now-empty queue is not matched and sits at queue position 1. -/
theorem matchmaker_fifo (kind mode : String) (n : ℕ) (users : List ℕ)
    (uN uX : ℕ)
    (hrule : List.lookup (normalize_queue kind mode) QUEUE_RULES_LIST = some n)
    (hlen : users.length + 1 = n)
    (hnd : (users ++ [uN] ++ [uX]).Nodup) :
    ((joinAll Matchmaker.start users kind mode).join uN kind mode).2.matchList
      = [(normalize_queue kind mode, users ++ [uN])]
    ∧ (((joinAll Matchmaker.start users kind mode).join uN kind mode).1.join uX
        kind mode).2.matchList = []
    ∧ (((joinAll Matchmaker.start users kind mode).join uN kind mode).1.join uX
        kind mode).1.queue_position uX (normalize_queue kind mode) = some 1 := by
  have h2n : 2 ≤ n := queue_rules_ge_two _ n hrule
  have hndA := List.nodup_append.mp hnd
  have hX : uX ∉ users ++ [uN] :=
    fun hmem => hndA.2.2 hmem (List.mem_singleton_self uX)
  have hndB := List.nodup_append.mp hndA.1
  have hN : uN ∉ users := fun hmem => hndB.2.2 hmem (List.mem_singleton_self uN)
  have hXu : uX ∉ users := fun h => hX (List.mem_append_left [uN] h)
  have hpre := joinAll_prefix kind mode n hrule users hndB.1 (by omega)
  have hmain := join_completes_match kind mode n users uN hrule hlen hN _ hpre
  have huqX : ((joinAll Matchmaker.start users kind mode).join uN
      kind mode).1.user_queue uX = none := by
    rw [hmain.2.2 uX hX, hpre.2.2 uX, if_neg hXu]
  have hsingle := join_single_queued _ uX kind mode n hrule h2n huqX hmain.2.1
  exact ⟨hmain.1, hsingle.1, hsingle.2.2⟩

/-- Witness for C2 on the `("arena", "duel")` queue (two players
needed): users 7 then 8 join and form `[7, 8]`; user 9 then queues at
position 1 with no match. -/
theorem matchmaker_fifo_witness :
    ((joinAll Matchmaker.start [7] "arena" "duel").join 8 "arena" "duel").2.matchList
      = [(("arena", "duel"), [7, 8])]
    ∧ (((joinAll Matchmaker.start [7] "arena" "duel").join 8 "arena" "duel").1.join 9
        "arena" "duel").2.matchList = []
    ∧ (((joinAll Matchmaker.start [7] "arena" "duel").join 8 "arena" "duel").1.join 9
        "arena" "duel").1.queue_position 9 ("arena", "duel") = some 1 := by
  have hnorm : normalize_queue "arena" "duel" = ("arena", "duel") := by decide
  have h := matchmaker_fifo "arena" "duel" 2 [7] 8 9
    (by rw [hnorm]; decide) (by decide) (by decide)
  rw [hnorm] at h
  exact h

theorem matchLoopFuel_consistent (needed : ℕ) (key : QueueKey)
    (QS : QueueKey → List ℕ) :
    ∀ (fuel : ℕ) (q : List ℕ) (uq : ℕ → Option QueueKey) (acc : List (List ℕ)),
      (∀ u k, uq u = some k ↔ u ∈ (if k = key then q else QS k))
      → (∀ k, (if k = key then q else QS k).Nodup)
      → (∀ u k, (matchLoopFuel needed fuel q uq acc).2.1 u = some k ↔
            u ∈ (if k = key then (matchLoopFuel needed fuel q uq acc).1 else QS k))
        ∧ (∀ k,
            (if k = key then (matchLoopFuel needed fuel q uq acc).1 else QS k).Nodup)
        := by
  intro fuel
  induction fuel with
  | zero => intro q uq acc hiff hnd; exact ⟨hiff, hnd⟩
  | succ f ih =>
    intro q uq acc hiff hnd
    by_cases hc : 0 < needed ∧ needed ≤ q.length
    · simp only [matchLoopFuel, if_pos hc]
      have hndq : q.Nodup := by have := hnd key; rwa [if_pos rfl] at this
      have hnd2 : (q.take needed ++ q.drop needed).Nodup := by
        rw [List.take_append_drop]; exact hndq
      have hdisj := (List.nodup_append.mp hnd2).2.2
      apply ih
      · intro u k
        show (if u ∈ q.take needed then none else uq u) = some k
          ↔ u ∈ (if k = key then q.drop needed else QS k)
        by_cases hmem : u ∈ q.take needed
        · rw [if_pos hmem]
          constructor
          · intro hcon; exact Option.noConfusion hcon
          · intro hin
            by_cases hk : k = key
            · rw [if_pos hk] at hin
              exact absurd hin (hdisj hmem)
            · rw [if_neg hk] at hin
              have humem : u ∈ q := by
                rw [← List.take_append_drop needed q]
                exact List.mem_append_left _ hmem
              have e1 := (hiff u key).mpr (by rw [if_pos rfl]; exact humem)
              have e2 := (hiff u k).mpr (by rw [if_neg hk]; exact hin)
              rw [e1] at e2
              exact (hk (Option.some.inj e2).symm).elim
        · rw [if_neg hmem, hiff u k]
          by_cases hk : k = key
          · rw [if_pos hk, if_pos hk]
            constructor
            · intro hin
              rw [← List.take_append_drop needed q] at hin
              rcases List.mem_append.mp hin with hl | hr
              · exact absurd hl hmem
              · exact hr
            · intro hin
              rw [← List.take_append_drop needed q]
              exact List.mem_append_right _ hin
          · rw [if_neg hk, if_neg hk]
      · intro k
        by_cases hk : k = key
        · rw [if_pos hk]
          exact (List.nodup_append.mp hnd2).2.1
        · rw [if_neg hk]
          have := hnd k; rwa [if_neg hk] at this
    · simp only [matchLoopFuel, if_neg hc]
      exact ⟨hiff, hnd⟩

theorem joinCore_consistent (mm : Matchmaker) (uid : ℕ) (key : QueueKey)
    (n : ℕ) (left : Option QueueKey)
    (hA : ∀ u k, u ≠ uid → (mm.user_queue u = some k ↔ u ∈ mm.queues k))
    (hB : ∀ k, uid ∉ mm.queues k)
    (hC : ∀ k, (mm.queues k).Nodup) :
    Consistent (mm.joinCore uid key n left).1 := by
  have hiff2 : ∀ u k, (if u = uid then some key else mm.user_queue u) = some k
      ↔ u ∈ (if k = key then mm.queues key ++ [uid] else mm.queues k) := by
    intro u k
    by_cases hu : u = uid
    · rw [if_pos hu]
      constructor
      · intro h
        obtain rfl : key = k := Option.some.inj h
        rw [if_pos rfl, hu]
        exact List.mem_append_right _ (List.mem_singleton_self uid)
      · intro hin
        by_cases hk : k = key
        · rw [hk]
        · rw [if_neg hk] at hin
          rw [hu] at hin
          exact absurd hin (hB k)
    · rw [if_neg hu]
      by_cases hk : k = key
      · rw [if_pos hk, hk, hA u key hu]
        constructor
        · intro hin; exact List.mem_append_left _ hin
        · intro hin
          rcases List.mem_append.mp hin with hl | hr
          · exact hl
          · exact absurd (List.mem_singleton.mp hr) hu
      · rw [if_neg hk]
        exact hA u k hu
  have hnd2 : ∀ k, (if k = key then mm.queues key ++ [uid] else mm.queues k).Nodup := by
    intro k
    by_cases hk : k = key
    · rw [if_pos hk, List.nodup_append]
      refine ⟨hC key, List.nodup_singleton uid, ?_⟩
      intro a ha hmem
      rw [List.mem_singleton] at hmem
      rw [hmem] at ha
      exact hB key ha
    · rw [if_neg hk]
      exact hC k
  have hres := matchLoopFuel_consistent n key mm.queues
    ((mm.queues key ++ [uid]).length) (mm.queues key ++ [uid])
    (fun u => if u = uid then some key else mm.user_queue u) [] hiff2 hnd2
  simp only [Matchmaker.joinCore, matchLoop]
  rw [if_neg (hB key)]
  exact ⟨hres.1, hres.2⟩

theorem removeFromQueue_setup (mm : Matchmaker) (uid : ℕ) (current : QueueKey)
    (h : Consistent mm) (huq : mm.user_queue uid = some current) :
    (∀ u k, u ≠ uid →
      ((mm.removeFromQueue uid current).user_queue u = some k ↔
        u ∈ (mm.removeFromQueue uid current).queues k))
    ∧ (∀ k, uid ∉ (mm.removeFromQueue uid current).queues k)
    ∧ (∀ k, ((mm.removeFromQueue uid current).queues k).Nodup) := by
  obtain ⟨hiff, hnd⟩ := h
  refine ⟨?_, ?_, ?_⟩
  · intro u k hu
    simp only [Matchmaker.removeFromQueue]
    by_cases hk : k = current
    · rw [if_pos hk, List.mem_erase_of_ne hu, hk]
      exact hiff u current
    · rw [if_neg hk]
      exact hiff u k
  · intro k
    simp only [Matchmaker.removeFromQueue]
    by_cases hk : k = current
    · rw [if_pos hk]
      intro hmem
      rw [(hnd current).mem_erase_iff] at hmem
      exact hmem.1 rfl
    · rw [if_neg hk]
      intro hmem
      have h2 := (hiff uid k).mpr hmem
      rw [huq] at h2
      exact hk (Option.some.inj h2).symm
  · intro k
    simp only [Matchmaker.removeFromQueue]
    by_cases hk : k = current
    · rw [if_pos hk]
      exact (hnd current).erase uid
    · rw [if_neg hk]
      exact hnd k

theorem join_consistent (mm : Matchmaker) (uid : ℕ) (kind mode : String)
    (h : Consistent mm) : Consistent (mm.join uid kind mode).1 := by
  simp only [Matchmaker.join]
  split
  · exact h
  · rename_i n hrule
    split
    · rename_i current huq
      split
      · exact h
      · rename_i hck
        obtain ⟨pA, pB, pC⟩ := removeFromQueue_setup mm uid current h huq
        exact joinCore_consistent _ uid _ n _ pA pB pC
    · rename_i huq
      refine joinCore_consistent mm uid _ n none (fun u k _ => h.1 u k) ?_ h.2
      intro k hmem
      have h2 := (h.1 uid k).mpr hmem
      rw [huq] at h2
      exact Option.noConfusion h2

theorem leave_consistent (mm : Matchmaker) (uid : ℕ) (kind mode : Option String)
    (h : Consistent mm) : Consistent (mm.leave uid kind mode).1 := by
  simp only [Matchmaker.leave]
  split
  · exact h
  · rename_i current huq
    have hrem : Consistent (Matchmaker.mk (mm.removeFromQueue uid current).queues
        (fun u => if u = uid then none
          else (mm.removeFromQueue uid current).user_queue u)) := by
      obtain ⟨pA, pB, pC⟩ := removeFromQueue_setup mm uid current h huq
      refine ⟨?_, pC⟩
      intro u k
      show (if u = uid then none
          else (mm.removeFromQueue uid current).user_queue u) = some k
        ↔ u ∈ (mm.removeFromQueue uid current).queues k
      by_cases hu : u = uid
      · rw [if_pos hu]
        constructor
        · intro hcon; exact Option.noConfusion hcon
        · intro hmem
          rw [hu] at hmem
          exact absurd hmem (pB k)
      · rw [if_neg hu]
        exact pA u k hu
    split
    · split
      · exact h
      · exact hrem
    · exact hrem

theorem applyMMOps_consistent : ∀ (ops : List MMOp) (mm : Matchmaker),
    Consistent mm → Consistent (applyMMOps mm ops) := by
  intro ops
  induction ops with
  | nil => intro mm h; exact h
  | cons op ops ih =>
    intro mm h
    have hstep : Consistent (applyMMOp mm op) := by
      cases op with
      | join uid kind mode => exact join_consistent mm uid kind mode h
      | leave uid kind mode => exact leave_consistent mm uid kind mode h
      | removeUser uid => exact leave_consistent mm uid none none h
    exact ih _ hstep

/-- C9: after every sequence of matchmaker operations (join, leave,
remove_user) from the empty matchmaker, `user_queue` records key `k`
for a user exactly when the user sits in the deque for `k`; in
particular every user occupies at most one queue across all keys (so a
join for a new key has removed the user from any queue they previously
occupied). -/
theorem matchmaker_queue_consistency (ops : List MMOp) :
    (∀ u k, (applyMMOps Matchmaker.start ops).user_queue u = some k ↔
        u ∈ (applyMMOps Matchmaker.start ops).queues k)
    ∧ (∀ u k k', u ∈ (applyMMOps Matchmaker.start ops).queues k →
        u ∈ (applyMMOps Matchmaker.start ops).queues k' → k = k') := by
  have hc := applyMMOps_consistent ops Matchmaker.start
    ⟨fun u k => ⟨fun h => Option.noConfusion h, fun h => absurd h (List.not_mem_nil u)⟩,
     fun _ => List.nodup_nil⟩
  refine ⟨hc.1, ?_⟩
  intro u k k' h1 h2
  have e1 := (hc.1 u k).mpr h1
  have e2 := (hc.1 u k').mpr h2
  rw [e1] at e2
  exact Option.some.inj e2

/-- Witness for C9: after one concrete join, `user_queue` and the deque
agree. -/
theorem matchmaker_queue_consistency_witness :
    (applyMMOps Matchmaker.start [MMOp.join 12 "arena" "duel"]).user_queue 12
      = some ("arena", "duel") := by
  refine ((matchmaker_queue_consistency [MMOp.join 12 "arena" "duel"]).1 12
    ("arena", "duel")).mpr ?_
  decide

end Careers
